import Mathlib

/-!
Verification of the bug-count aggregation tool (src/python/bugs/main.py)
against its specification.

The Python script is embedded shallowly:

* Python dicts become association lists; a key bound several times during
  construction resolves to the latest binding (`dictGet`), matching dict
  assignment semantics.  Iteration order of a dict is modelled by the order
  of the association list.
* `collections.defaultdict(int)` accumulators become functions `String → Int`
  with explicit pointwise update (`fnUpdate`), default value 0.
* Fallible code (parse failures, `TypeError` and `ValueError` aborts) returns
  `Option` or `Except String`.
* File contents are passed in as `String`s or lists of lines; the file system
  itself and standard output are outside the embedding.
-/

/-- The characters Python `str.strip()` removes: space, tab, newline, carriage
return, vertical tab and form feed. -/
def isPySpace (c : Char) : Bool :=
  c == ' ' || c == '\t' || c == '\n' || c == '\r' || c == '\x0b' || c == '\x0c'

/-- Python `s.strip()`: drop leading and trailing whitespace. -/
def pyStrip (s : String) : String :=
  (((s.toList.dropWhile isPySpace).reverse.dropWhile isPySpace).reverse).asString

/-- Python `s.split(sep, 1)` unpacked into two variables: the text before the
first occurrence of `sep` and the text after it.  When `sep` does not occur the
unpacking raises `ValueError`, modelled by `none`. -/
def pySplitOnce (s : String) (sep : Char) : Option (String × String) :=
  if sep ∈ s.toList then
    some ((s.toList.takeWhile (fun c => c != sep)).asString,
          ((s.toList.dropWhile (fun c => c != sep)).drop 1).asString)
  else none

/-- Iterating a Python file object yields its lines with the terminating
newline kept; the final piece after the last newline is yielded only when it is
nonempty (a file never yields an empty-string line). -/
def pyLinesList : List Char → List (List Char)
  | [] => []
  | c :: rest =>
    if c = '\n' then ['\n'] :: pyLinesList rest
    else
      match pyLinesList rest with
      | [] => [[c]]
      | l :: ls => (c :: l) :: ls

/-- Python `s.split(sep)` for a one-character separator, on the underlying
character list: split at every occurrence, keeping empty pieces, and yield one
(empty) piece for the empty string. -/
def pySplitChars (sep : Char) : List Char → List (List Char)
  | [] => [[]]
  | c :: rest =>
    if c = sep then [] :: pySplitChars sep rest
    else
      match pySplitChars sep rest with
      | [] => [[c]]
      | l :: ls => (c :: l) :: ls

/-- Python `s.split(sep)` for a one-character separator. -/
def pySplit (s : String) (sep : Char) : List String :=
  (pySplitChars sep s.toList).map List.asString

/-- Dict lookup on an association list.  Later bindings shadow earlier ones,
exactly as repeated dict assignment (or `dict(pairs)`) keeps the last value for
a duplicated key. -/
def dictGet : List (String × α) → String → Option α
  | [], _ => none
  | p :: rest, k =>
    match dictGet rest k with
    | some v => some v
    | none => if p.1 = k then some p.2 else none

/-- `dict[k] = v` on an association list: overwrite the first binding of `k`
in place, or append a fresh binding. -/
def alSet : List (String × α) → String → α → List (String × α)
  | [], k, v => [(k, v)]
  | p :: rest, k, v =>
    if p.1 = k then (k, v) :: rest else p :: alSet rest k v

/-- A RegionMap: region name to recorded value, as in the Python
`dict[str, str]` inner maps. -/
abbrev RegionMap := List (String × String)

/-- A BugTable: bug name to RegionMap (`dict[str, dict[str, str]]`). -/
abbrev BugTable := List (String × RegionMap)

/-- Two-level lookup in a BugTable. -/
def dictGet2 (t : BugTable) (b r : String) : Option String :=
  match dictGet t b with
  | some m => dictGet m r
  | none => none

/-- `bug_info_by_name[b][r] = v` on a `defaultdict(dict)`: the inner map for
`b` is created on first assignment, an existing `(b, r)` binding is
overwritten. -/
def tableSet : BugTable → String → String → String → BugTable
  | [], b, r, v => [(b, [(r, v)])]
  | p :: rest, b, r, v =>
    if p.1 = b then (p.1, alSet p.2 r v) :: rest else p :: tableSet rest b r v

/-- Pointwise update of a `defaultdict(int)` accumulator. -/
def fnUpdate (f : String → Int) (k : String) (v : Int) : String → Int :=
  fun x => if x = k then v else f x

/-- `walk_tree`: flatten the two-level table into (name, key, value) triples,
outer iteration over bugs, inner over each RegionMap. -/
def walk_tree (t : BugTable) : List (String × String × String) :=
  t.flatMap (fun p => p.2.map (fun q => (p.1, q.1, q.2)))

/-- The fold inside `count_bugs`.  The source step is

    if number not in number_to_freq: print(warning)
    accumulator[region] += number_to_freq.get(number)

When `number` is missing, `.get` returns `None` and the `+=` between an `int`
and `None` raises `TypeError`, so the fold aborts at the first missing value
(after printing the warning for it). -/
def count_fold (number_to_freq : List (String × Int)) :
    List (String × String × String) → (String → Int) → Except String (String → Int)
  | [], accumulator => .ok accumulator
  | tr :: rest, accumulator =>
    match dictGet number_to_freq tr.2.2 with
    | some f => count_fold number_to_freq rest
        (fnUpdate accumulator tr.2.1 (accumulator tr.2.1 + f))
    | none => .error "TypeError: unsupported operand types for +=: int and NoneType"

/-- `count_bugs` on an already-read table and frequency map: reduce the
flattened triples with `count_fold` starting from a zero-defaulting
accumulator. -/
def count_bugs (number_to_freq : List (String × Int)) (bug_info_by_name : BugTable) :
    Except String (String → Int) :=
  count_fold number_to_freq (walk_tree bug_info_by_name) (fun _ => 0)

/-- The triples for which `count_bugs` prints a lookup-miss warning: the step
prints for the first triple whose value is missing and then aborts, so at most
one warning is emitted. -/
def count_warned (number_to_freq : List (String × Int)) :
    List (String × String × String) → List (String × String × String)
  | [] => []
  | tr :: rest =>
    match dictGet number_to_freq tr.2.2 with
    | some _ => count_warned number_to_freq rest
    | none => [tr]

/-- The fold inside `analyze_bugs`.  `reduce` always calls the combining
function as `f(accumulator, item)`, but `calculate_risk` declares its
parameters in the order `(tripplet, accumulator)`: the accumulator dict arrives
in the `tripplet` position and the current triple in the `accumulator`
position.  The unpacking `bug_name, region, number = tripplet` iterates the
keys of the accumulator dict and needs exactly three of them; the initial
accumulator is an empty `defaultdict(int)`, so the very first step raises
`ValueError`.  (Even with exactly three keys the body would then evaluate
`accumulator[bug_name]`, indexing the actual triple — a tuple — with a string
key, a `TypeError`.)  The frequency and region-weight maps are never reached. -/
def analyze_fold :
    List (String × String × String) → List (String × Int) → Except String (List (String × Int))
  | [], accumulator => .ok accumulator
  | _tr :: _rest, accumulator =>
    match accumulator.map Prod.fst with
    | [_, _, _] => .error "TypeError: tuple indices must be integers, not str"
    | _ => .error "ValueError: need more than 0 values to unpack"

/-- `analyze_bugs` on an already-read table, coefficient map and region-weight
map. -/
def analyze_bugs (_number_to_freq _care_rate_per_region : List (String × Int))
    (bug_info_by_name : BugTable) : Except String (List (String × Int)) :=
  analyze_fold (walk_tree bug_info_by_name) []

/-- C1: the claim says a value missing from the frequency map is reported as a
warning, contributes zero to its region, and the `count` command still
completes.  The code does warn, but then evaluates
`accumulator[region] += number_to_freq.get(number)` whose right-hand side is
`None`, raising `TypeError`: the command aborts instead of completing.  Here
the table has the single triple ("Aphid", "France", "7") and the frequency map
is empty, so the value "7" is missing: the warning for that triple is emitted
and `count_bugs` aborts. -/
theorem count_lookup_miss_is_fatal_typeerror :
    count_bugs [] [("Aphid", [("France", "7")])] =
      .error "TypeError: unsupported operand types for +=: int and NoneType" ∧
    count_warned [] (walk_tree [("Aphid", [("France", "7")])]) =
      [("Aphid", "France", "7")] := by
  constructor <;> rfl

/-- C2: the claim says `analyze` returns, for each bug, the sum of
`region_weight[region] * frequency_lookup[value]`.  In the source, `reduce`
calls the combining function as `f(accumulator, triple)` while
`calculate_risk` binds its parameters as `(tripplet, accumulator)`, so the
first step tries to unpack the empty accumulator dict as a triple and raises
`ValueError` for every table with at least one (bug, region, value) entry.
Here every value of the table appears in the coefficient map, as the claim
requires, and the command still aborts. -/
theorem analyze_swapped_reducer_arguments_abort :
    analyze_bugs [("1", 2)] [("France", 3)] [("Aphid", [("France", "1")])] =
      .error "ValueError: need more than 0 values to unpack" := by
  rfl

/-- Sequence a list of fallible parses: `none` as soon as one element fails,
otherwise the list of results.  This is how a parse error raised lazily inside
`dict(generator)` aborts the whole construction. -/
def mapOpt (f : α → Option β) : List α → Option (List β)
  | [] => some []
  | x :: rest =>
    match f x, mapOpt f rest with
    | some y, some ys => some (y :: ys)
    | _, _ => none

/-- `parse_bug_number_per_country`: split a data line on its first colon into
`number` and the comma-separated region list, and bind every region (stripped)
to the stripped number.  `zip` against `it.repeat(number.strip())` pairs each
region with that same number, i.e. it is a map over the regions.  A line
without a colon makes the two-variable unpacking raise `ValueError`. -/
def parse_bug_number_per_country (line : String) : Option (List (String × String)) :=
  match pySplitOnce line ':' with
  | some (number, countries) =>
      some ((pySplit countries ',').map (fun c => (pyStrip c, pyStrip number)))
  | none => none

/-- The pair list a well-formed data line contributes (total version, for
stating theorems). -/
def line_pairs (line : String) : List (String × String) :=
  match pySplitOnce line ':' with
  | some (number, countries) =>
      (pySplit countries ',').map (fun c => (pyStrip c, pyStrip number))
  | none => []

/-- The non-blank lines after the name line, the ones `read_bug_info` parses. -/
def record_data_lines (rest : List String) : List String :=
  rest.filter (fun l => !(pyStrip l).isEmpty)

/-- `read_bug_info` on the lines of a record file: skip leading blank lines,
take the next line as the (stripped) name — `next` raises `StopIteration` when
there is none — and build the region dict from every remaining non-blank
line. -/
def read_bug_info (lines : List String) : Option (String × RegionMap) :=
  match lines.dropWhile (fun l => (pyStrip l).isEmpty) with
  | [] => none
  | nameLine :: rest =>
    (mapOpt parse_bug_number_per_country (record_data_lines rest)).map
      (fun pairss => (pyStrip nameLine, pairss.flatten))

theorem mapOpt_eq_none_of_mem {f : α → Option β} {l : List α} {x : α}
    (hx : x ∈ l) (hfx : f x = none) : mapOpt f l = none := by
  induction l with
  | nil => cases hx
  | cons y rest ih =>
    rcases List.mem_cons.mp hx with h | h
    · subst h
      simp [mapOpt, hfx]
    · have := ih h
      simp only [mapOpt, this]
      cases f y <;> rfl

theorem mapOpt_eq_map {f : α → Option β} {g : α → β} {l : List α}
    (h : ∀ x ∈ l, f x = some (g x)) : mapOpt f l = some (l.map g) := by
  induction l with
  | nil => rfl
  | cons y rest ih =>
    have hy := h y (List.mem_cons_self y rest)
    have hrest := ih (fun x hx => h x (List.mem_cons_of_mem y hx))
    simp [mapOpt, hy, hrest]

theorem dictGet_cons {p : String × α} {rest : List (String × α)} {k : String} :
    dictGet (p :: rest) k =
      match dictGet rest k with
      | some v => some v
      | none => if p.1 = k then some p.2 else none := rfl

theorem dictGet_eq_none_iff {m : List (String × α)} {k : String} :
    dictGet m k = none ↔ k ∉ m.map Prod.fst := by
  induction m with
  | nil => simp [dictGet]
  | cons p rest ih =>
    rw [dictGet_cons]
    simp only [List.map_cons, List.mem_cons]
    cases h : dictGet rest k with
    | some v =>
      simp only [h]
      constructor
      · intro hc; cases hc
      · intro hc
        exact absurd (ih.mpr (fun hk => hc (Or.inr hk))) (by simp [h])
    | none =>
      have hk := ih.mp h
      by_cases hpk : p.1 = k
      · simp [hpk]
      · have hkp : ¬k = p.1 := fun hh => hpk hh.symm
        simp [hpk, hk, hkp]

theorem dictGet_append {a b : List (String × α)} {k : String} :
    dictGet (a ++ b) k =
      match dictGet b k with
      | some v => some v
      | none => dictGet a k := by
  induction a with
  | nil =>
    simp only [List.nil_append]
    cases dictGet b k <;> simp [dictGet]
  | cons p rest ih =>
    rw [List.cons_append, dictGet_cons, dictGet_cons, ih]
    cases dictGet b k <;> cases dictGet rest k <;> rfl

theorem dictGet_of_mem_nodup {m : List (String × α)} {p : String × α}
    (hnd : (m.map Prod.fst).Nodup) (hp : p ∈ m) : dictGet m p.1 = some p.2 := by
  induction m with
  | nil => cases hp
  | cons q rest ih =>
    simp only [List.map_cons, List.nodup_cons] at hnd
    rcases List.mem_cons.mp hp with h | h
    · subst h
      have : dictGet rest p.1 = none :=
        dictGet_eq_none_iff.mpr hnd.1
      simp [dictGet, this]
    · have := ih hnd.2 h
      simp [dictGet, this]

theorem dictGet_const_snd {m : List (String × α)} {k : String} {v : α}
    (hall : ∀ p ∈ m, p.2 = v) (hk : k ∈ m.map Prod.fst) : dictGet m k = some v := by
  induction m with
  | nil => cases hk
  | cons q rest ih =>
    simp only [dictGet]
    cases h : dictGet rest k with
    | some w =>
      have : k ∈ rest.map Prod.fst := by
        by_contra hc
        rw [dictGet_eq_none_iff.mpr hc] at h
        cases h
      have := ih (fun p hp => hall p (List.mem_cons_of_mem q hp)) this
      rw [h] at this
      exact this
    | none =>
      have hkr : k ∉ rest.map Prod.fst := dictGet_eq_none_iff.mp h
      simp only [List.map_cons, List.mem_cons] at hk
      rcases hk with hq | hr
      · have : q.1 = k := hq.symm
        simp [this, hall q (List.mem_cons_self q rest)]
      · exact absurd hr hkr

theorem parse_eq_line_pairs {line : String} (h : ':' ∈ line.toList) :
    parse_bug_number_per_country line = some (line_pairs line) := by
  unfold parse_bug_number_per_country line_pairs pySplitOnce
  rw [if_pos h]

theorem read_bug_info_wellformed {lines : List String} {nameLine : String}
    {rest : List String}
    (hdrop : lines.dropWhile (fun l => (pyStrip l).isEmpty) = nameLine :: rest)
    (hcolon : ∀ l ∈ record_data_lines rest, ':' ∈ l.toList) :
    read_bug_info lines =
      some (pyStrip nameLine, ((record_data_lines rest).map line_pairs).flatten) := by
  have hparse : ∀ l ∈ record_data_lines rest,
      parse_bug_number_per_country l = some (line_pairs l) :=
    fun l hl => parse_eq_line_pairs (hcolon l hl)
  unfold read_bug_info
  rw [hdrop]
  show (mapOpt parse_bug_number_per_country (record_data_lines rest)).map
      (fun pairss => (pyStrip nameLine, pairss.flatten)) = _
  rw [mapOpt_eq_map hparse]
  rfl

/-- C6: for a record file whose first non-blank line is a name and whose
subsequent non-blank lines have the form code:region1, region2, ..., every
listed region (stripped of surrounding whitespace) is mapped to that line's
stripped code, the record name being the stripped name line; regions listed
under several lines are handled in C10, so here the listed regions are assumed
pairwise distinct.  In particular the file Aphid / 1: France, Spain / 2: Italy
parses to ("Aphid", France ↦ 1, Spain ↦ 1, Italy ↦ 2). -/
theorem read_bug_info_parses_record :
    (∀ (lines : List String) (nameLine : String) (rest : List String),
      lines.dropWhile (fun l => (pyStrip l).isEmpty) = nameLine :: rest →
      (∀ l ∈ record_data_lines rest, ':' ∈ l.toList) →
      ((((record_data_lines rest).map line_pairs).flatten).map Prod.fst).Nodup →
      ∃ m, read_bug_info lines = some (pyStrip nameLine, m) ∧
        ∀ l ∈ record_data_lines rest, ∀ rc ∈ line_pairs l, dictGet m rc.1 = some rc.2) ∧
    read_bug_info ["Aphid", "1: France, Spain", "2: Italy"] =
      some ("Aphid", [("France", "1"), ("Spain", "1"), ("Italy", "2")]) := by
  constructor
  · intro lines nameLine rest hdrop hcolon hnd
    refine ⟨_, read_bug_info_wellformed hdrop hcolon, ?_⟩
    intro l hl rc hrc
    apply dictGet_of_mem_nodup hnd
    exact List.mem_flatten.mpr ⟨line_pairs l, List.mem_map_of_mem line_pairs hl, hrc⟩
  · rfl

/-- Witness for C6: the theorem instantiated at the example record file. -/
theorem read_bug_info_parses_record_witness :
    ∃ m, read_bug_info ["Aphid", "1: France, Spain", "2: Italy"] = some ("Aphid", m) ∧
      dictGet m "France" = some "1" ∧ dictGet m "Spain" = some "1" ∧
      dictGet m "Italy" = some "2" := by
  obtain ⟨m, hm, hlookup⟩ :=
    read_bug_info_parses_record.1 ["Aphid", "1: France, Spain", "2: Italy"] "Aphid"
      ["1: France, Spain", "2: Italy"] (by decide) (by decide) (by decide)
  refine ⟨m, hm, ?_, ?_, ?_⟩
  · exact hlookup "1: France, Spain" (by decide) ("France", "1") (by decide)
  · exact hlookup "1: France, Spain" (by decide) ("Spain", "1") (by decide)
  · exact hlookup "2: Italy" (by decide) ("Italy", "2") (by decide)

/-- C7: `read_bug_info` returns no (name, RegionMap) result — it fails with a
parse error — when the file is empty or has no non-blank name line (the first
conjunct: `next` raises `StopIteration`), or when some non-blank line after
the name line has no colon (the second conjunct: the two-variable unpacking of
`line.split(":", 1)` raises `ValueError`). -/
theorem read_bug_info_rejects_malformed :
    (∀ lines : List String,
      lines.dropWhile (fun l => (pyStrip l).isEmpty) = [] → read_bug_info lines = none) ∧
    (∀ (lines : List String) (nameLine l : String) (rest : List String),
      lines.dropWhile (fun l => (pyStrip l).isEmpty) = nameLine :: rest →
      l ∈ record_data_lines rest → ':' ∉ l.toList →
      read_bug_info lines = none) := by
  constructor
  · intro lines hdrop
    unfold read_bug_info
    rw [hdrop]
  · intro lines nameLine l rest hdrop hl hnc
    unfold read_bug_info
    rw [hdrop]
    show (mapOpt parse_bug_number_per_country (record_data_lines rest)).map
        (fun pairss => (pyStrip nameLine, pairss.flatten)) = none
    have hpl : parse_bug_number_per_country l = none := by
      unfold parse_bug_number_per_country pySplitOnce
      rw [if_neg hnc]
    rw [mapOpt_eq_none_of_mem hl hpl]
    rfl

/-- Witness for C7: an all-blank file and a file with a colon-free data line
are both rejected. -/
theorem read_bug_info_rejects_malformed_witness :
    read_bug_info ["", "   "] = none ∧ read_bug_info ["Aphid", "1 France"] = none := by
  constructor
  · exact read_bug_info_rejects_malformed.1 ["", "   "] (by decide)
  · exact read_bug_info_rejects_malformed.2 ["Aphid", "1 France"] "Aphid" "1 France"
      ["1 France"] (by decide) (by decide) (by decide)

/-- C10: when the same region is listed on more than one data line, the dict
built by `read_bug_info` keeps the code of the last line that lists it: for a
data line `l0` followed only by lines that do not list region `r`, the lookup
of `r` yields the stripped code of `l0`, whatever earlier lines said. -/
theorem read_bug_info_last_line_wins :
    ∀ (lines : List String) (nameLine : String) (rest L1 L2 : List String)
      (l0 code tail r : String),
      lines.dropWhile (fun l => (pyStrip l).isEmpty) = nameLine :: rest →
      (∀ l ∈ record_data_lines rest, ':' ∈ l.toList) →
      record_data_lines rest = L1 ++ l0 :: L2 →
      pySplitOnce l0 ':' = some (code, tail) →
      r ∈ (pySplit tail ',').map pyStrip →
      (∀ l ∈ L2, r ∉ (line_pairs l).map Prod.fst) →
      ∃ m, read_bug_info lines = some (pyStrip nameLine, m) ∧
        dictGet m r = some (pyStrip code) := by
  intro lines nameLine rest L1 L2 l0 code tail r hdrop hcolon hsplit hl0 hr hnot
  refine ⟨_, read_bug_info_wellformed hdrop hcolon, ?_⟩
  rw [hsplit, List.map_append, List.map_cons, List.flatten_append, List.flatten_cons]
  have hlp : line_pairs l0 = (pySplit tail ',').map (fun c => (pyStrip c, pyStrip code)) := by
    unfold line_pairs
    rw [hl0]
  have hB : dictGet ((L2.map line_pairs).flatten) r = none := by
    rw [dictGet_eq_none_iff]
    intro hmem
    rw [List.mem_map] at hmem
    obtain ⟨p, hp, hpr⟩ := hmem
    rw [List.mem_flatten] at hp
    obtain ⟨pl, hpl, hppl⟩ := hp
    rw [List.mem_map] at hpl
    obtain ⟨l, hlL2, rfl⟩ := hpl
    exact hnot l hlL2 (hpr ▸ List.mem_map_of_mem Prod.fst hppl)
  have hmid : dictGet (line_pairs l0 ++ (L2.map line_pairs).flatten) r
      = some (pyStrip code) := by
    rw [dictGet_append, hB]
    show dictGet (line_pairs l0) r = some (pyStrip code)
    apply dictGet_const_snd
    · intro p hp
      rw [hlp, List.mem_map] at hp
      obtain ⟨c, _, rfl⟩ := hp
      rfl
    · rw [hlp, List.map_map]
      exact hr
  rw [dictGet_append, hmid]

/-- Witness for C10: in the record Aphid / 1: France / 2: France, Italy the
region France is bound to "2", the code of the last line listing it. -/
theorem read_bug_info_last_line_wins_witness :
    ∃ m, read_bug_info ["Aphid", "1: France", "2: France, Italy"] = some ("Aphid", m) ∧
      dictGet m "France" = some "2" := by
  exact read_bug_info_last_line_wins ["Aphid", "1: France", "2: France, Italy"] "Aphid"
    ["1: France", "2: France, Italy"] ["1: France"] [] "2: France, Italy" "2" " France, Italy"
    "France" (by decide) (by decide) (by decide) (by decide) (by decide) (by decide)

/-- The numeric value of a run of decimal digits, as Python `int(n)`. -/
def digitsToNat (ds : List Char) : Nat :=
  ds.foldl (fun a c => 10 * a + (c.toNat - 48)) 0

/-- Parse one mapping-file line against the anchored pattern of
`read_mapping_files`: digits, then whitespace, then free text.  The lazy
one-or-more whitespace always consumes exactly one character because the
following match-anything group never fails, and that group stops before a
newline; backtracking the digit group never helps because a digit is not
whitespace.  So a line matches iff it starts with at least one digit and the
character right after the digit run is whitespace; the description is the rest
of the line up to the newline, stripped, and the code is the digit run as an
integer.  A non-matching line makes `.match` return None and `.groups()`
raise, modelled by `none`. -/
def parse_mapping_line (line : String) : Option (String × Int) :=
  let cs := line.toList
  let ds := cs.takeWhile (fun c => c.isDigit)
  let rest := cs.dropWhile (fun c => c.isDigit)
  if ds.isEmpty then none
  else
    match rest with
    | [] => none
    | w :: rest2 =>
      if isPySpace w then
        some (pyStrip ((rest2.takeWhile (fun c => c != '\n')).asString),
              (digitsToNat ds : Int))
      else none

/-- The lines `read_mapping_files` iterates: the file's lines (newline kept),
with the vacuous `if line` filter of the source. -/
def mapping_file_lines (content : String) : List String :=
  ((pyLinesList content.toList).map List.asString).filter (fun l => !l.isEmpty)

/-- `read_mapping_files` on a file's content: build the description-to-code
dict, aborting on the first malformed line. -/
def read_mapping_files (content : String) : Option (List (String × Int)) :=
  mapOpt parse_mapping_line (mapping_file_lines content)

/-- C8: `read_mapping_files` fails, with no partial result, on any file with a
line that does not match digits-whitespace-text (first conjunct), and on a
file whose lines all match it returns the dict mapping each line's stripped
description to its integer code (second conjunct; distinct descriptions, since
a duplicated description would keep only the last code). -/
theorem read_mapping_files_spec :
    (∀ (content l : String),
      l ∈ mapping_file_lines content →
      parse_mapping_line l = none →
      read_mapping_files content = none) ∧
    (∀ content : String,
      (∀ l ∈ mapping_file_lines content, (parse_mapping_line l).isSome) →
      ((mapping_file_lines content).map
        (fun l => (Prod.fst ((parse_mapping_line l).getD ("", 0))))).Nodup →
      ∃ m, read_mapping_files content = some m ∧
        ∀ l ∈ mapping_file_lines content, ∀ dn : String × Int,
          parse_mapping_line l = some dn → dictGet m dn.1 = some dn.2) := by
  constructor
  · intro content l hl hnone
    exact mapOpt_eq_none_of_mem hl hnone
  · intro content hsome hnd
    have hg : ∀ l ∈ mapping_file_lines content,
        parse_mapping_line l = some ((parse_mapping_line l).getD ("", 0)) := by
      intro l hl
      cases h : parse_mapping_line l with
      | some v => rfl
      | none =>
        have hs := hsome l hl
        rw [h] at hs
        exact absurd hs (by simp)
    refine ⟨(mapping_file_lines content).map (fun l => (parse_mapping_line l).getD ("", 0)),
      mapOpt_eq_map hg, ?_⟩
    intro l hl dn hdn
    have hmem : dn ∈ (mapping_file_lines content).map
        (fun l => (parse_mapping_line l).getD ("", 0)) := by
      refine List.mem_map.mpr ⟨l, hl, ?_⟩
      rw [hdn]
      rfl
    have hnd2 : (((mapping_file_lines content).map
        (fun l => (parse_mapping_line l).getD ("", 0))).map Prod.fst).Nodup := by
      rw [List.map_map]
      exact hnd
    exact dictGet_of_mem_nodup hnd2 hmem

/-- Witness for C8: the file 1 apple / 2 bee parses to its two entries, and a
file containing the malformed line 12x is rejected. -/
theorem read_mapping_files_spec_witness :
    (∃ m, read_mapping_files "1 apple\n2 bee\n" = some m ∧
      dictGet m "apple" = some 1 ∧ dictGet m "bee" = some 2) ∧
    read_mapping_files "12x\n" = none := by
  constructor
  · obtain ⟨m, hm, hlook⟩ := read_mapping_files_spec.2 "1 apple\n2 bee\n"
      (by decide) (by decide)
    refine ⟨m, hm, ?_, ?_⟩
    · exact hlook "1 apple\n" (by decide) ("apple", 1) (by decide)
    · exact hlook "2 bee\n" (by decide) ("bee", 2) (by decide)
  · exact read_mapping_files_spec.1 "12x\n" "12x\n" (by decide) (by decide)

theorem walk_tree_cons {q : String × RegionMap} {rest : BugTable} :
    walk_tree (q :: rest) =
      q.2.map (fun rv => (q.1, rv.1, rv.2)) ++ walk_tree rest := by
  simp [walk_tree]

theorem walk_tree_filter_nil {l : BugTable} {b : String}
    (hb : b ∉ l.map Prod.fst) :
    (walk_tree l).filterMap
      (fun tr => if tr.1 = b then some (tr.2.1, tr.2.2) else none) = [] := by
  rw [List.filterMap_eq_nil_iff]
  intro tr htr
  have : tr.1 ∈ l.map Prod.fst := by
    simp only [walk_tree, List.mem_flatMap] at htr
    obtain ⟨p, hp, htr⟩ := htr
    rw [List.mem_map] at htr
    obtain ⟨rv, _, rfl⟩ := htr
    exact List.mem_map_of_mem Prod.fst hp
  have hne : ¬tr.1 = b := fun h => hb (h ▸ this)
  simp [hne]

/-- C9: flattening a BugTable with `walk_tree` yields one (name, region, value)
triple per (bug, region) entry — the lengths add up — and grouping the triples
back by bug name recovers each bug's region-to-value pairs exactly (bug names
are unique in a dict). -/
theorem walk_tree_roundtrip :
    ∀ t : BugTable, (t.map Prod.fst).Nodup →
      (∀ p ∈ t, (walk_tree t).filterMap
        (fun tr => if tr.1 = p.1 then some (tr.2.1, tr.2.2) else none) = p.2) ∧
      (walk_tree t).length = (t.map (fun p => p.2.length)).sum := by
  intro t hnd
  constructor
  · induction t with
    | nil => intro p hp; cases hp
    | cons q rest ih =>
      simp only [List.map_cons, List.nodup_cons] at hnd
      intro p hp
      rw [walk_tree_cons, List.filterMap_append]
      rcases List.mem_cons.mp hp with h | h
      · subst h
        rw [walk_tree_filter_nil hnd.1]
        rw [List.filterMap_map]
        have hcomp : ((fun tr : String × String × String =>
            if tr.1 = p.1 then some (tr.2.1, tr.2.2) else none) ∘
            fun rv : String × String => (p.1, rv.1, rv.2)) = some := by
          funext rv
          simp
        rw [hcomp, List.filterMap_some, List.append_nil]
      · have hpne : ¬q.1 = p.1 := by
          intro he
          exact hnd.1 (he ▸ List.mem_map_of_mem Prod.fst h)
        have hqnil : (q.2.map (fun rv => (q.1, rv.1, rv.2))).filterMap
            (fun tr => if tr.1 = p.1 then some (tr.2.1, tr.2.2) else none) = [] := by
          rw [List.filterMap_eq_nil_iff]
          intro tr htr
          rw [List.mem_map] at htr
          obtain ⟨rv, _, rfl⟩ := htr
          simp [hpne]
        rw [hqnil, List.nil_append]
        exact ih hnd.2 p h
  · induction t with
    | nil => rfl
    | cons q rest ih =>
      simp only [List.map_cons, List.nodup_cons] at hnd
      rw [walk_tree_cons, List.length_append, List.length_map, ih hnd.2,
        List.map_cons, List.sum_cons]

/-- Witness for C9, on the two-bug table of the unit tests. -/
theorem walk_tree_roundtrip_witness :
    (walk_tree [("a", [("ka", "va"), ("ka2", "va2")]), ("b", [("kb", "vb")])]).filterMap
      (fun tr => if tr.1 = "a" then some (tr.2.1, tr.2.2) else none) =
      [("ka", "va"), ("ka2", "va2")] ∧
    (walk_tree [("a", [("ka", "va"), ("ka2", "va2")]), ("b", [("kb", "vb")])]).length = 3 := by
  have h := walk_tree_roundtrip
    [("a", [("ka", "va"), ("ka2", "va2")]), ("b", [("kb", "vb")])] (by decide)
  exact ⟨h.1 ("a", [("ka", "va"), ("ka2", "va2")]) (by decide), h.2⟩

/-- Modes of the csv reader (the states of the stdlib csv parser restricted to
the default dialect with delimiter from the call site): at start of a record,
at start of a field after a delimiter, inside an unquoted field, inside a
quoted field, just after a quote inside a quoted field, and just after a
carriage return that ended a record. -/
inductive CsvMode
  | startRecord
  | startField
  | inField
  | inQuoted
  | quoteInQuoted
  | afterCr
  deriving DecidableEq

/-- Reader state: completed rows, completed fields of the current row, the
characters of the current field, and the mode. -/
structure CsvSt where
  rows : List (List String)
  row : List String
  field : List Char
  mode : CsvMode
  deriving DecidableEq

/-- One reader step, per character, for delimiter `;` and quote `"` with
doubled-quote escaping: a newline outside quotes ends the record (a blank line
yields an empty record, which `read_csv` filters out), `\r\n` counts as one
terminator, characters inside quotes are literal, a doubled quote inside a
quoted field is one quote character, and text after a closing quote continues
the field unquoted. -/
def csvStep (st : CsvSt) (c : Char) : CsvSt :=
  match st with
  | ⟨rows, row, field, mode⟩ =>
    match mode with
    | .startRecord =>
      if c = '"' then ⟨rows, row, field, .inQuoted⟩
      else if c = ';' then ⟨rows, row ++ [""], field, .startField⟩
      else if c = '\n' then ⟨rows ++ [[]], row, field, .startRecord⟩
      else if c = '\r' then ⟨rows ++ [[]], row, field, .afterCr⟩
      else ⟨rows, row, [c], .inField⟩
    | .startField =>
      if c = '"' then ⟨rows, row, field, .inQuoted⟩
      else if c = ';' then ⟨rows, row ++ [""], field, .startField⟩
      else if c = '\n' then ⟨rows ++ [row ++ [""]], [], [], .startRecord⟩
      else if c = '\r' then ⟨rows ++ [row ++ [""]], [], [], .afterCr⟩
      else ⟨rows, row, [c], .inField⟩
    | .inField =>
      if c = ';' then ⟨rows, row ++ [field.asString], [], .startField⟩
      else if c = '\n' then ⟨rows ++ [row ++ [field.asString]], [], [], .startRecord⟩
      else if c = '\r' then ⟨rows ++ [row ++ [field.asString]], [], [], .afterCr⟩
      else ⟨rows, row, field ++ [c], .inField⟩
    | .inQuoted =>
      if c = '"' then ⟨rows, row, field, .quoteInQuoted⟩
      else ⟨rows, row, field ++ [c], .inQuoted⟩
    | .quoteInQuoted =>
      if c = '"' then ⟨rows, row, field ++ ['"'], .inQuoted⟩
      else if c = ';' then ⟨rows, row ++ [field.asString], [], .startField⟩
      else if c = '\n' then ⟨rows ++ [row ++ [field.asString]], [], [], .startRecord⟩
      else if c = '\r' then ⟨rows ++ [row ++ [field.asString]], [], [], .afterCr⟩
      else ⟨rows, row, field ++ [c], .inField⟩
    | .afterCr =>
      if c = '\n' then ⟨rows, row, field, .startRecord⟩
      else if c = '\r' then ⟨rows, row, field, .afterCr⟩
      else if c = '"' then ⟨rows, row, field, .inQuoted⟩
      else if c = ';' then ⟨rows, row ++ [""], field, .startField⟩
      else ⟨rows, row, [c], .inField⟩

/-- Flush the reader at end of input: mid-record state commits the pending
field and row. -/
def csvFinish (st : CsvSt) : List (List String) :=
  match st.mode with
  | .startRecord => st.rows
  | .afterCr => st.rows
  | _ => st.rows ++ [st.row ++ [st.field.asString]]

/-- The rows the csv reader yields for a piece of text. -/
def decodeCsv (cs : List Char) : List (List String) :=
  csvFinish (cs.foldl csvStep ⟨[], [], [], .startRecord⟩)

/-- Does the writer need to quote this field under QUOTE_MINIMAL: it contains
the delimiter, the quote character, or a line-terminator character. -/
def needsQuote (cs : List Char) : Bool :=
  cs.any (fun c => c == ';' || c == '"' || c == '\n' || c == '\r')

/-- The writer escapes a quote character by doubling it. -/
def escQuotes : List Char → List Char
  | [] => []
  | c :: rest => if c = '"' then '"' :: '"' :: escQuotes rest else c :: escQuotes rest

/-- One field as the csv writer emits it. -/
def encodeCell (s : String) : List Char :=
  if needsQuote s.toList then '"' :: (escQuotes s.toList ++ ['"']) else s.toList

/-- One row: fields joined by the delimiter and terminated by CRLF; a lone
empty field is quoted so that the row is not written as a blank line. -/
def encodeRow (r : List String) : List Char :=
  if r = [""] then ['"', '"', '\r', '\n']
  else (List.intercalate [';'] (r.map encodeCell)) ++ ['\r', '\n']

/-- The full text the csv writer produces for a list of rows. -/
def encodeCsv (rows : List (List String)) : List Char :=
  (rows.map encodeRow).flatten

/-- The body loop of `read_csv`: blank rows are skipped by the truthiness
filter, each remaining row contributes its first cell as the region and, for
each (bug name, cell) pair of the header zipped against the rest of the row, a
table entry unless the cell is the dash placeholder.  (The source compares
with `is not`, which for the one-character interned strings produced by the
csv reader coincides with inequality.) -/
def read_csv_body (bug_names : List String) (body : List (List String)) : BugTable :=
  (body.filter (fun r => !r.isEmpty)).foldl (fun t row =>
    (bug_names.zip (row.drop 1)).foldl (fun t p =>
      if p.2 ≠ "-" then tableSet t p.1 (row.headD "") p.2 else t) t) []

/-- `read_csv` on already-split rows: the first row is the header whose first
cell is ignored and whose remaining cells are the bug names; a missing header
is the `StopIteration` failure. -/
def read_csv_rows (rows : List (List String)) : Option BugTable :=
  match rows with
  | [] => none
  | header :: body => some (read_csv_body (header.drop 1) body)

/-- Is the content pure ASCII?  The py2 csv module does not accept the
unicode lines a codecs.open file yields: it coerces every line with the
default ASCII codec while reading. -/
def pyIsAscii (s : String) : Bool :=
  s.toList.all (fun c => c.toNat < 128)

/-- `read_csv` on the text of a csv file.  Any non-ASCII character in the
content makes the csv reader raise UnicodeEncodeError during the coercion of
its line, aborting the whole read before a table is returned; ASCII content
is split into rows and handed to the header/body loop. -/
def read_csv (content : String) : Except String (Option BugTable) :=
  if pyIsAscii content then .ok (read_csv_rows (decodeCsv content.toList))
  else .error "UnicodeEncodeError: ascii codec can not encode character"


theorem mem_of_dictGet {m : List (String × α)} {k : String} {w : α}
    (h : dictGet m k = some w) : (k, w) ∈ m := by
  induction m with
  | nil => cases h
  | cons p rest ih =>
    rw [dictGet_cons] at h
    cases hr : dictGet rest p.1 with
    | _ =>
      cases hr2 : dictGet rest k with
      | some v =>
        rw [hr2] at h
        cases h
        exact List.mem_cons_of_mem p (ih hr2)
      | none =>
        rw [hr2] at h
        by_cases hp : p.1 = k
        · rw [if_pos hp] at h
          cases h
          exact hp ▸ List.mem_cons_self p rest
        · rw [if_neg hp] at h
          cases h

theorem alSet_cons {p : String × α} {rest : List (String × α)} {k : String} {v : α} :
    alSet (p :: rest) k v = if p.1 = k then (k, v) :: rest else p :: alSet rest k v := rfl

theorem tableSet_cons {p : String × RegionMap} {rest : BugTable} {b r v : String} :
    tableSet (p :: rest) b r v =
      if p.1 = b then (p.1, alSet p.2 r v) :: rest else p :: tableSet rest b r v := rfl

theorem mem_map_fst_alSet {m : List (String × α)} {k x : String} {v : α} :
    x ∈ (alSet m k v).map Prod.fst ↔ x ∈ m.map Prod.fst ∨ x = k := by
  induction m with
  | nil => simp [alSet]
  | cons p rest ih =>
    rw [alSet_cons]
    by_cases hp : p.1 = k
    · rw [if_pos hp]
      simp only [List.map_cons, List.mem_cons, hp]
      tauto
    · rw [if_neg hp]
      simp only [List.map_cons, List.mem_cons, ih]
      tauto

theorem nodup_map_fst_alSet {m : List (String × α)} {k : String} {v : α}
    (h : (m.map Prod.fst).Nodup) : ((alSet m k v).map Prod.fst).Nodup := by
  induction m with
  | nil => simp [alSet]
  | cons p rest ih =>
    simp only [List.map_cons, List.nodup_cons] at h
    rw [alSet_cons]
    by_cases hp : p.1 = k
    · rw [if_pos hp]
      simp only [List.map_cons, List.nodup_cons]
      exact ⟨hp ▸ h.1, h.2⟩
    · rw [if_neg hp]
      simp only [List.map_cons, List.nodup_cons]
      refine ⟨fun hc => ?_, ih h.2⟩
      rcases mem_map_fst_alSet.mp hc with hc | hc
      · exact h.1 hc
      · exact hp hc

theorem dictGet_alSet {m : List (String × α)} {k k2 : String} {v : α}
    (hnd : (m.map Prod.fst).Nodup) :
    dictGet (alSet m k v) k2 = if k2 = k then some v else dictGet m k2 := by
  induction m with
  | nil =>
    by_cases h : k2 = k
    · have h2 : k = k2 := h.symm
      simp [alSet, dictGet, h2]
    · have h2 : ¬k = k2 := fun hh => h hh.symm
      simp [alSet, dictGet, h, h2]
  | cons p rest ih =>
    simp only [List.map_cons, List.nodup_cons] at hnd
    by_cases hp : p.1 = k
    · rw [alSet_cons, if_pos hp, dictGet_cons, dictGet_cons]
      by_cases h2 : k2 = k
      · subst h2
        have hn : dictGet rest k2 = none := dictGet_eq_none_iff.mpr (hp ▸ hnd.1)
        rw [hn]
        simp
      · have h3 : ¬k = k2 := fun hh => h2 hh.symm
        have hp2 : ¬p.1 = k2 := by rw [hp]; exact h3
        cases hr : dictGet rest k2 <;> simp [h2, h3, hp2]
    · rw [alSet_cons, if_neg hp, dictGet_cons, dictGet_cons, ih hnd.2]
      by_cases h2 : k2 = k
      · simp [h2]
      · simp [h2]

theorem mem_map_fst_tableSet {t : BugTable} {b r v : String} {x : String} :
    x ∈ (tableSet t b r v).map Prod.fst ↔ x ∈ t.map Prod.fst ∨ x = b := by
  induction t with
  | nil => simp [tableSet]
  | cons p rest ih =>
    rw [tableSet_cons]
    by_cases hp : p.1 = b
    · rw [if_pos hp]
      simp only [List.map_cons, List.mem_cons, hp]
      tauto
    · rw [if_neg hp]
      simp only [List.map_cons, List.mem_cons, ih]
      tauto

theorem nodup_map_fst_tableSet {t : BugTable} {b r v : String}
    (h : (t.map Prod.fst).Nodup) : ((tableSet t b r v).map Prod.fst).Nodup := by
  induction t with
  | nil => simp [tableSet]
  | cons p rest ih =>
    simp only [List.map_cons, List.nodup_cons] at h
    rw [tableSet_cons]
    by_cases hp : p.1 = b
    · rw [if_pos hp]
      simp only [List.map_cons, List.nodup_cons]
      exact h
    · rw [if_neg hp]
      simp only [List.map_cons, List.nodup_cons]
      refine ⟨fun hc => ?_, ih h.2⟩
      rcases mem_map_fst_tableSet.mp hc with hc | hc
      · exact h.1 hc
      · exact hp hc

theorem inner_nodup_tableSet {t : BugTable} {b r v : String}
    (h : ∀ p ∈ t, (p.2.map Prod.fst).Nodup) :
    ∀ p ∈ tableSet t b r v, (p.2.map Prod.fst).Nodup := by
  induction t with
  | nil =>
    intro p hp
    simp only [tableSet, List.mem_singleton] at hp
    subst hp
    simp
  | cons q rest ih =>
    intro p hp
    rw [tableSet_cons] at hp
    by_cases hq : q.1 = b
    · rw [if_pos hq] at hp
      rcases List.mem_cons.mp hp with hp | hp
      · subst hp
        exact nodup_map_fst_alSet (h q (List.mem_cons_self q rest))
      · exact h p (List.mem_cons_of_mem q hp)
    · rw [if_neg hq] at hp
      rcases List.mem_cons.mp hp with hp | hp
      · subst hp
        exact h p (List.mem_cons_self p rest)
      · exact ih (fun x hx => h x (List.mem_cons_of_mem q hx)) p hp

theorem dictGet_tableSet {t : BugTable} {b r v b2 : String}
    (hnd : (t.map Prod.fst).Nodup) :
    dictGet (tableSet t b r v) b2 =
      if b2 = b then
        some (match dictGet t b with
              | some m => alSet m r v
              | none => [(r, v)])
      else dictGet t b2 := by
  induction t with
  | nil =>
    by_cases h : b2 = b
    · have h2 : b = b2 := h.symm
      simp [tableSet, dictGet, h2]
    · have h2 : ¬b = b2 := fun hh => h hh.symm
      simp [tableSet, dictGet, h, h2]
  | cons p rest ih =>
    simp only [List.map_cons, List.nodup_cons] at hnd
    by_cases hp : p.1 = b
    · have hbrest : dictGet rest b = none := dictGet_eq_none_iff.mpr (hp ▸ hnd.1)
      have hdget : dictGet (p :: rest) b = some p.2 := by
        rw [dictGet_cons, hbrest, if_pos hp]
      rw [tableSet_cons, if_pos hp]
      by_cases h2 : b2 = b
      · subst h2
        rw [if_pos rfl, hdget, dictGet_cons, hbrest]
        simp [hp]
      · rw [if_neg h2, dictGet_cons, dictGet_cons]
        have hp2 : ¬p.1 = b2 := by rw [hp]; exact fun hh => h2 hh.symm
        cases hr : dictGet rest b2 <;> simp [hp2]
    · rw [tableSet_cons, if_neg hp, dictGet_cons, ih hnd.2]
      by_cases h2 : b2 = b
      · subst h2
        have hsame : dictGet (p :: rest) b2 = dictGet rest b2 := by
          rw [dictGet_cons]
          cases dictGet rest b2 <;> simp [hp]
        rw [if_pos rfl, if_pos rfl, hsame]
      · rw [if_neg h2, if_neg h2, dictGet_cons]

theorem dictGet2_tableSet {t : BugTable} {b r v b2 r2 : String}
    (hnd : (t.map Prod.fst).Nodup) (hinner : ∀ p ∈ t, (p.2.map Prod.fst).Nodup) :
    dictGet2 (tableSet t b r v) b2 r2 =
      if b2 = b ∧ r2 = r then some v else dictGet2 t b2 r2 := by
  unfold dictGet2
  rw [dictGet_tableSet hnd]
  by_cases hb : b2 = b
  · subst hb
    cases ht : dictGet t b2 with
    | some m =>
      have hm : (b2, m) ∈ t := mem_of_dictGet ht
      rw [if_pos rfl]
      show dictGet (alSet m r v) r2 = _
      rw [dictGet_alSet (hinner (b2, m) hm)]
      by_cases hr : r2 = r
      · simp [hr]
      · simp [hr]
    | none =>
      rw [if_pos rfl]
      show dictGet [(r, v)] r2 = _
      by_cases hr : r2 = r
      · have h2 : r = r2 := hr.symm
        simp [dictGet, h2]
      · have h2 : ¬r = r2 := fun hh => hr hh.symm
        simp [dictGet, h2, hr]
  · have hc : ¬(b2 = b ∧ r2 = r) := fun hc => hb hc.1
    rw [if_neg hb, if_neg hc]

theorem nodup_map_fst_zip {l1 : List α} {l2 : List β} (h : l1.Nodup) :
    ((l1.zip l2).map Prod.fst).Nodup := by
  induction l1 generalizing l2 with
  | nil => simp
  | cons a rest ih =>
    cases l2 with
    | nil => simp
    | cons b l2 =>
      rw [List.zip_cons_cons, List.map_cons, List.nodup_cons]
      rw [List.nodup_cons] at h
      refine ⟨fun hc => ?_, ih h.2⟩
      rw [List.mem_map] at hc
      obtain ⟨p, hp, hpa⟩ := hc
      apply h.1
      have hpa2 : p.1 = a := hpa
      rw [← hpa2]
      exact (List.of_mem_zip hp).1

theorem rowfold_wf (P : List (String × String)) (reg : String) {t : BugTable}
    (hnd : (t.map Prod.fst).Nodup) (hinner : ∀ p ∈ t, (p.2.map Prod.fst).Nodup) :
    (((P.foldl (fun t p => if p.2 ≠ "-" then tableSet t p.1 reg p.2 else t) t).map
      Prod.fst).Nodup) ∧
    (∀ q ∈ P.foldl (fun t p => if p.2 ≠ "-" then tableSet t p.1 reg p.2 else t) t,
      (q.2.map Prod.fst).Nodup) := by
  induction P generalizing t with
  | nil => exact ⟨hnd, hinner⟩
  | cons p P2 ih =>
    rw [List.foldl_cons]
    by_cases hd : p.2 ≠ "-"
    · rw [if_pos hd]
      exact ih (nodup_map_fst_tableSet hnd) (inner_nodup_tableSet hinner)
    · rw [if_neg hd]
      exact ih hnd hinner

theorem rowfold_lookup {P : List (String × String)} {reg : String} {t : BugTable}
    {b2 r2 : String}
    (hnd : (t.map Prod.fst).Nodup) (hinner : ∀ p ∈ t, (p.2.map Prod.fst).Nodup)
    (hP : (P.map Prod.fst).Nodup) :
    dictGet2 (P.foldl (fun t p => if p.2 ≠ "-" then tableSet t p.1 reg p.2 else t) t) b2 r2 =
      if r2 = reg then
        (match dictGet P b2 with
         | some v => if v = "-" then dictGet2 t b2 r2 else some v
         | none => dictGet2 t b2 r2)
      else dictGet2 t b2 r2 := by
  induction P generalizing t with
  | nil =>
    by_cases h : r2 = reg
    · rw [if_pos h]
      rfl
    · rw [if_neg h]
      rfl
  | cons p P2 ih =>
    simp only [List.map_cons, List.nodup_cons] at hP
    rw [List.foldl_cons, dictGet_cons]
    by_cases hd : p.2 = "-"
    · have hstep : (if p.2 ≠ "-" then tableSet t p.1 reg p.2 else t) = t := by
        rw [if_neg (by simpa using hd)]
      rw [hstep, ih hnd hinner hP.2]
      by_cases hr : r2 = reg
      · rw [if_pos hr, if_pos hr]
        cases hg : dictGet P2 b2 with
        | some v => rfl
        | none =>
          by_cases hb : p.1 = b2
          · rw [if_pos hb, hd]
            simp
          · rw [if_neg hb]
      · rw [if_neg hr, if_neg hr]
    · have hstep : (if p.2 ≠ "-" then tableSet t p.1 reg p.2 else t) =
          tableSet t p.1 reg p.2 := if_pos hd
      rw [hstep, ih (nodup_map_fst_tableSet hnd) (inner_nodup_tableSet hinner) hP.2]
      have htab := @dictGet2_tableSet t p.1 reg p.2 b2 r2 hnd hinner
      rw [htab]
      by_cases hr : r2 = reg
      · rw [if_pos hr, if_pos hr]
        cases hg : dictGet P2 b2 with
        | some v =>
          have hb2 : b2 ∈ P2.map Prod.fst := by
            by_contra hc
            rw [dictGet_eq_none_iff.mpr hc] at hg
            cases hg
          have hbp : ¬(b2 = p.1 ∧ r2 = reg) := fun hc => hP.1 (hc.1 ▸ hb2)
          rw [if_neg hbp]
        | none =>
          by_cases hb : p.1 = b2
          · rw [if_pos hb]
            have hb2 : b2 = p.1 ∧ r2 = reg := ⟨hb.symm, hr⟩
            rw [if_pos hb2]
            simp [hd]
          · rw [if_neg hb]
            have hbp : ¬(b2 = p.1 ∧ r2 = reg) := fun hc => hb hc.1.symm
            rw [if_neg hbp]
      · rw [if_neg hr, if_neg hr]
        have hbp : ¬(b2 = p.1 ∧ r2 = reg) := fun hc => hr hc.2
        rw [if_neg hbp]

theorem bodyfold_wf (rows : List (List String)) (bugs : List String) {t : BugTable}
    (hnd : (t.map Prod.fst).Nodup) (hinner : ∀ p ∈ t, (p.2.map Prod.fst).Nodup) :
    (((rows.foldl (fun t row => (bugs.zip (row.drop 1)).foldl
        (fun t p => if p.2 ≠ "-" then tableSet t p.1 (row.headD "") p.2 else t) t) t).map
      Prod.fst).Nodup) ∧
    (∀ q ∈ rows.foldl (fun t row => (bugs.zip (row.drop 1)).foldl
        (fun t p => if p.2 ≠ "-" then tableSet t p.1 (row.headD "") p.2 else t) t) t,
      (q.2.map Prod.fst).Nodup) := by
  induction rows generalizing t with
  | nil => exact ⟨hnd, hinner⟩
  | cons row rows ih =>
    simp only [List.foldl_cons]
    have hw := rowfold_wf (bugs.zip (row.drop 1)) (row.headD "") hnd hinner
    exact ih hw.1 hw.2

theorem bodyfold_other {rows : List (List String)} {bugs : List String} {t : BugTable}
    {b2 r2 : String}
    (hbugs : bugs.Nodup)
    (hnd : (t.map Prod.fst).Nodup) (hinner : ∀ p ∈ t, (p.2.map Prod.fst).Nodup)
    (hreg : ∀ row ∈ rows, ¬(row.headD "") = r2) :
    dictGet2 (rows.foldl (fun t row => (bugs.zip (row.drop 1)).foldl
        (fun t p => if p.2 ≠ "-" then tableSet t p.1 (row.headD "") p.2 else t) t) t) b2 r2 =
      dictGet2 t b2 r2 := by
  induction rows generalizing t with
  | nil => rfl
  | cons row rows ih =>
    simp only [List.foldl_cons]
    have hw := rowfold_wf (bugs.zip (row.drop 1)) (row.headD "") hnd hinner
    rw [ih hw.1 hw.2 (fun x hx => hreg x (List.mem_cons_of_mem row hx))]
    rw [rowfold_lookup hnd hinner (nodup_map_fst_zip hbugs)]
    rw [if_neg (fun hc => hreg row (List.mem_cons_self row rows) hc.symm)]

theorem read_csv_body_lookup {bugs : List String} {body : List (List String)}
    (hbugs : bugs.Nodup) (hrows : ∀ row ∈ body, row ≠ [])
    (hregs : (body.map (fun row => row.headD "")).Nodup) :
    ∀ row ∈ body, ∀ p ∈ bugs.zip (row.drop 1),
      dictGet2 (read_csv_body bugs body) p.1 (row.headD "") =
        if p.2 = "-" then none else some p.2 := by
  intro row hrow p hp
  obtain ⟨B1, B2, rfl⟩ := List.append_of_mem hrow
  have hmid : ((B1 ++ row :: B2).map (fun row => row.headD "")).Nodup := hregs
  rw [List.map_append, List.map_cons] at hmid
  have hmid2 := (List.nodup_middle).mp hmid
  rw [List.nodup_cons] at hmid2
  have hnotmem := hmid2.1
  rw [List.mem_append] at hnotmem
  have hnotB1 : ∀ x ∈ B1, ¬(x.headD "") = (row.headD "") := by
    intro x hx he
    exact hnotmem (Or.inl (he ▸ List.mem_map_of_mem (fun row => row.headD "") hx))
  have hnotB2 : ∀ x ∈ B2, ¬(x.headD "") = (row.headD "") := by
    intro x hx he
    exact hnotmem (Or.inr (he ▸ List.mem_map_of_mem (fun row => row.headD "") hx))
  unfold read_csv_body
  have hfilter : (B1 ++ row :: B2).filter (fun r => !r.isEmpty) = B1 ++ row :: B2 := by
    rw [List.filter_eq_self]
    intro a ha
    have := hrows a ha
    simp [this]
  rw [hfilter]
  simp only [List.foldl_append, List.foldl_cons]
  have hwf0 : ((([] : BugTable).map Prod.fst).Nodup) := by simp
  have hinner0 : ∀ q ∈ ([] : BugTable), (q.2.map Prod.fst).Nodup := by
    intro q hq
    cases hq
  have hwf1 := bodyfold_wf B1 bugs hwf0 hinner0
  have hwf2 := rowfold_wf (bugs.zip (row.drop 1)) (row.headD "") hwf1.1 hwf1.2
  rw [bodyfold_other hbugs hwf2.1 hwf2.2 hnotB2]
  rw [rowfold_lookup hwf1.1 hwf1.2 (nodup_map_fst_zip hbugs)]
  rw [if_pos rfl]
  rw [dictGet_of_mem_nodup (nodup_map_fst_zip hbugs) hp]
  rw [bodyfold_other hbugs hwf0 hinner0 hnotB1]
  by_cases hd : p.2 = "-"
  · simp [hd, dictGet2, dictGet]
  · simp [hd]

/-- C3: `read_csv` stores every non-header cell at its (bug, region) pair and
skips every cell equal to the dash placeholder, leaving the pair absent (for a
well-formed table: distinct bug names, distinct region rows, no blank rows);
in particular the example CSV with rows Region;Aphid;Beetle / France;1;- /
Italy;2;3 reads to the table where Beetle has an Italy entry but no France
entry. -/
theorem read_csv_skips_dash_cells :
    (∀ (bugs : List String) (body : List (List String)),
      bugs.Nodup →
      (∀ row ∈ body, row ≠ []) →
      (body.map (fun row => row.headD "")).Nodup →
      ∀ row ∈ body, ∀ p ∈ bugs.zip (row.drop 1),
        dictGet2 (read_csv_body bugs body) p.1 (row.headD "") =
          if p.2 = "-" then none else some p.2) ∧
    read_csv "Region;Aphid;Beetle\nFrance;1;-\nItaly;2;3\n" =
      .ok (some [("Aphid", [("France", "1"), ("Italy", "2")]),
                 ("Beetle", [("Italy", "3")])]) := by
  constructor
  · intro bugs body hbugs hrows hregs
    exact read_csv_body_lookup hbugs hrows hregs
  · rfl

/-- Witness for C3: at the example table, the dash cell for (Beetle, France)
is skipped and the cell for (Aphid, France) is stored. -/
theorem read_csv_skips_dash_cells_witness :
    dictGet2 (read_csv_body ["Aphid", "Beetle"]
      [["France", "1", "-"], ["Italy", "2", "3"]]) "Beetle" "France" = none ∧
    dictGet2 (read_csv_body ["Aphid", "Beetle"]
      [["France", "1", "-"], ["Italy", "2", "3"]]) "Aphid" "France" = some "1" := by
  have h := read_csv_skips_dash_cells.1 ["Aphid", "Beetle"]
    [["France", "1", "-"], ["Italy", "2", "3"]] (by decide) (by decide) (by decide)
  constructor
  · have h2 := h ["France", "1", "-"] (by decide) ("Beetle", "-") (by decide)
    simpa using h2
  · have h2 := h ["France", "1", "-"] (by decide) ("Aphid", "1") (by decide)
    simpa using h2

theorem asString_toList {s : String} : s.toList.asString = s := rfl

theorem csvStep_startField_quote {R : List (List String)} {w : List String} {f : List Char} :
    csvStep ⟨R, w, f, .startField⟩ '"' = ⟨R, w, f, .inQuoted⟩ := rfl

theorem csvStep_startField_semi {R : List (List String)} {w : List String} {f : List Char} :
    csvStep ⟨R, w, f, .startField⟩ ';' = ⟨R, w ++ [""], f, .startField⟩ := rfl

theorem csvStep_startField_ord {R : List (List String)} {w : List String} {f : List Char}
    {c : Char} (hq : ¬c = '"') (hs : ¬c = ';') (hn : ¬c = '\n') (hr : ¬c = '\r') :
    csvStep ⟨R, w, f, .startField⟩ c = ⟨R, w, [c], .inField⟩ := by
  simp [csvStep, hq, hs, hn, hr]

theorem csvStep_inField_semi {R : List (List String)} {w : List String} {f : List Char} :
    csvStep ⟨R, w, f, .inField⟩ ';' = ⟨R, w ++ [f.asString], [], .startField⟩ := rfl

theorem csvStep_inField_cr {R : List (List String)} {w : List String} {f : List Char} :
    csvStep ⟨R, w, f, .inField⟩ '\r' = ⟨R ++ [w ++ [f.asString]], [], [], .afterCr⟩ := rfl

theorem csvStep_inField_ord {R : List (List String)} {w : List String} {f : List Char}
    {c : Char} (hs : ¬c = ';') (hn : ¬c = '\n') (hr : ¬c = '\r') :
    csvStep ⟨R, w, f, .inField⟩ c = ⟨R, w, f ++ [c], .inField⟩ := by
  simp [csvStep, hs, hn, hr]

theorem csvStep_inQuoted_quote {R : List (List String)} {w : List String} {f : List Char} :
    csvStep ⟨R, w, f, .inQuoted⟩ '"' = ⟨R, w, f, .quoteInQuoted⟩ := rfl

theorem csvStep_inQuoted_other {R : List (List String)} {w : List String} {f : List Char}
    {c : Char} (hq : ¬c = '"') :
    csvStep ⟨R, w, f, .inQuoted⟩ c = ⟨R, w, f ++ [c], .inQuoted⟩ := by
  simp [csvStep, hq]

theorem csvStep_qq_quote {R : List (List String)} {w : List String} {f : List Char} :
    csvStep ⟨R, w, f, .quoteInQuoted⟩ '"' = ⟨R, w, f ++ ['"'], .inQuoted⟩ := rfl

theorem csvStep_qq_semi {R : List (List String)} {w : List String} {f : List Char} :
    csvStep ⟨R, w, f, .quoteInQuoted⟩ ';' = ⟨R, w ++ [f.asString], [], .startField⟩ := rfl

theorem csvStep_qq_cr {R : List (List String)} {w : List String} {f : List Char} :
    csvStep ⟨R, w, f, .quoteInQuoted⟩ '\r' = ⟨R ++ [w ++ [f.asString]], [], [], .afterCr⟩ := rfl

theorem csvStep_afterCr_lf {R : List (List String)} {w : List String} {f : List Char} :
    csvStep ⟨R, w, f, .afterCr⟩ '\n' = ⟨R, w, f, .startRecord⟩ := rfl

theorem csvStep_sr_eq_sf {R : List (List String)} {w : List String} {f : List Char}
    {c : Char} (hn : ¬c = '\n') (hr : ¬c = '\r') :
    csvStep ⟨R, w, f, .startRecord⟩ c = csvStep ⟨R, w, f, .startField⟩ c := by
  by_cases hq : c = '"'
  · subst hq; rfl
  · by_cases hs : c = ';'
    · subst hs; rfl
    · simp [csvStep, hq, hs, hn, hr]

theorem foldl_inField_run {cs : List Char}
    (h : ∀ c ∈ cs, ¬c = ';' ∧ ¬c = '\n' ∧ ¬c = '\r') :
    ∀ {R : List (List String)} {w : List String} {f : List Char},
      cs.foldl csvStep ⟨R, w, f, .inField⟩ = ⟨R, w, f ++ cs, .inField⟩ := by
  induction cs with
  | nil => intro R w f; simp
  | cons c cs ih =>
    intro R w f
    have hc := h c (List.mem_cons_self c cs)
    rw [List.foldl_cons, csvStep_inField_ord hc.1 hc.2.1 hc.2.2,
      ih (fun x hx => h x (List.mem_cons_of_mem c hx))]
    simp

theorem foldl_quoted_run {body : List Char} :
    ∀ {R : List (List String)} {w : List String} {f : List Char},
      (escQuotes body).foldl csvStep ⟨R, w, f, .inQuoted⟩ = ⟨R, w, f ++ body, .inQuoted⟩ := by
  induction body with
  | nil => intro R w f; simp [escQuotes]
  | cons c body ih =>
    intro R w f
    by_cases hq : c = '"'
    · subst hq
      have he : escQuotes ('"' :: body) = '"' :: '"' :: escQuotes body := by
        simp [escQuotes]
      rw [he, List.foldl_cons, csvStep_inQuoted_quote, List.foldl_cons, csvStep_qq_quote, ih]
      simp
    · have he : escQuotes (c :: body) = c :: escQuotes body := by
        simp [escQuotes, hq]
      rw [he, List.foldl_cons, csvStep_inQuoted_other hq, ih]
      simp

theorem ord_of_not_needsQuote {cs : List Char} (h : needsQuote cs = false) {c : Char}
    (hc : c ∈ cs) : ¬c = ';' ∧ ¬c = '"' ∧ ¬c = '\n' ∧ ¬c = '\r' := by
  rw [needsQuote, List.any_eq_false] at h
  have h3 := h c hc
  simp only [Bool.or_eq_true, beq_iff_eq, not_or] at h3
  exact ⟨h3.1.1.1, h3.1.1.2, h3.1.2, h3.2⟩

theorem csvStep_startField_cr {R : List (List String)} {w : List String} {f : List Char} :
    csvStep ⟨R, w, f, .startField⟩ '\r' = ⟨R ++ [w ++ [""]], [], [], .afterCr⟩ := rfl

theorem foldl_cell_semi {s : String} {R : List (List String)} {w : List String} :
    (encodeCell s ++ [';']).foldl csvStep ⟨R, w, [], .startField⟩ =
      ⟨R, w ++ [s], [], .startField⟩ := by
  by_cases hq : needsQuote s.toList
  · have he : encodeCell s = '"' :: (escQuotes s.toList ++ ['"']) := by
      unfold encodeCell
      rw [if_pos hq]
    have hsplit : ('"' :: (escQuotes s.toList ++ ['"'])) ++ [';'] =
        '"' :: (escQuotes s.toList ++ ['"', ';']) := by simp
    rw [he, hsplit, List.foldl_cons, csvStep_startField_quote, List.foldl_append,
      foldl_quoted_run]
    simp only [List.nil_append]
    rw [List.foldl_cons, csvStep_inQuoted_quote, List.foldl_cons, csvStep_qq_semi,
      List.foldl_nil, asString_toList]
  · have hqf : needsQuote s.toList = false := by simpa using hq
    have he : encodeCell s = s.toList := by
      unfold encodeCell
      rw [if_neg hq]
    rw [he]
    cases hcs : s.toList with
    | nil =>
      have hs : s = "" := by
        have := congrArg List.asString hcs
        rwa [asString_toList] at this
      rw [hs]
      simp only [List.nil_append, List.foldl_cons, csvStep_startField_semi, List.foldl_nil]
    | cons c cs2 =>
      have hcmem : c ∈ s.toList := by rw [hcs]; exact List.mem_cons_self c cs2
      have hcord := ord_of_not_needsQuote hqf hcmem
      have hcs2 : ∀ x ∈ cs2, ¬x = ';' ∧ ¬x = '\n' ∧ ¬x = '\r' := by
        intro x hx
        have hxm : x ∈ s.toList := by rw [hcs]; exact List.mem_cons_of_mem c hx
        have ho := ord_of_not_needsQuote hqf hxm
        exact ⟨ho.1, ho.2.2.1, ho.2.2.2⟩
      rw [List.cons_append, List.foldl_cons,
        csvStep_startField_ord hcord.2.1 hcord.1 hcord.2.2.1 hcord.2.2.2,
        List.foldl_append, foldl_inField_run hcs2, List.foldl_cons, csvStep_inField_semi,
        List.foldl_nil]
      have hback : ([c] ++ cs2).asString = s := by
        rw [show [c] ++ cs2 = c :: cs2 from rfl, ← hcs, asString_toList]
      rw [hback]

theorem foldl_cell_crlf {s : String} {R : List (List String)} {w : List String} :
    (encodeCell s ++ ['\r', '\n']).foldl csvStep ⟨R, w, [], .startField⟩ =
      ⟨R ++ [w ++ [s]], [], [], .startRecord⟩ := by
  by_cases hq : needsQuote s.toList
  · have he : encodeCell s = '"' :: (escQuotes s.toList ++ ['"']) := by
      unfold encodeCell
      rw [if_pos hq]
    have hsplit : ('"' :: (escQuotes s.toList ++ ['"'])) ++ ['\r', '\n'] =
        '"' :: (escQuotes s.toList ++ ['"', '\r', '\n']) := by simp
    rw [he, hsplit, List.foldl_cons, csvStep_startField_quote, List.foldl_append,
      foldl_quoted_run]
    simp only [List.nil_append]
    rw [List.foldl_cons, csvStep_inQuoted_quote, List.foldl_cons, csvStep_qq_cr,
      List.foldl_cons, csvStep_afterCr_lf, List.foldl_nil, asString_toList]
  · have hqf : needsQuote s.toList = false := by simpa using hq
    have he : encodeCell s = s.toList := by
      unfold encodeCell
      rw [if_neg hq]
    rw [he]
    cases hcs : s.toList with
    | nil =>
      have hs : s = "" := by
        have := congrArg List.asString hcs
        rwa [asString_toList] at this
      rw [hs]
      simp only [List.nil_append, List.foldl_cons, csvStep_startField_cr,
        csvStep_afterCr_lf, List.foldl_nil]
    | cons c cs2 =>
      have hcmem : c ∈ s.toList := by rw [hcs]; exact List.mem_cons_self c cs2
      have hcord := ord_of_not_needsQuote hqf hcmem
      have hcs2 : ∀ x ∈ cs2, ¬x = ';' ∧ ¬x = '\n' ∧ ¬x = '\r' := by
        intro x hx
        have hxm : x ∈ s.toList := by rw [hcs]; exact List.mem_cons_of_mem c hx
        have ho := ord_of_not_needsQuote hqf hxm
        exact ⟨ho.1, ho.2.2.1, ho.2.2.2⟩
      rw [List.cons_append, List.foldl_cons,
        csvStep_startField_ord hcord.2.1 hcord.1 hcord.2.2.1 hcord.2.2.2,
        List.foldl_append, foldl_inField_run hcs2, List.foldl_cons, csvStep_inField_cr,
        List.foldl_cons, csvStep_afterCr_lf, List.foldl_nil]
      have hback : ([c] ++ cs2).asString = s := by
        rw [show [c] ++ cs2 = c :: cs2 from rfl, ← hcs, asString_toList]
      rw [hback]

theorem intercalate_one {α : Type} {sep x : List α} : List.intercalate sep [x] = x := by
  simp [List.intercalate]

theorem intercalate_cons₂ {α : Type} {sep x y : List α} {zs : List (List α)} :
    List.intercalate sep (x :: y :: zs) = x ++ sep ++ List.intercalate sep (y :: zs) := by
  simp [List.intercalate, List.intersperse]

theorem foldl_sr_of_sf {cs : List Char} {R : List (List String)} {w : List String}
    {f : List Char} (hne : cs ≠ [])
    (h : ∀ d, cs.head? = some d → ¬d = '\n' ∧ ¬d = '\r') :
    cs.foldl csvStep ⟨R, w, f, .startRecord⟩ = cs.foldl csvStep ⟨R, w, f, .startField⟩ := by
  cases cs with
  | nil => cases hne rfl
  | cons d cs =>
    have hd := h d rfl
    rw [List.foldl_cons, List.foldl_cons, csvStep_sr_eq_sf hd.1 hd.2]

theorem encodeCell_head_ok {s : String} {d : Char}
    (h : (encodeCell s).head? = some d) : ¬d = '\n' ∧ ¬d = '\r' := by
  by_cases hq : needsQuote s.toList
  · have he : encodeCell s = '"' :: (escQuotes s.toList ++ ['"']) := by
      unfold encodeCell
      rw [if_pos hq]
    rw [he] at h
    cases h
    exact ⟨by decide, by decide⟩
  · have hqf : needsQuote s.toList = false := by simpa using hq
    have he : encodeCell s = s.toList := by
      unfold encodeCell
      rw [if_neg hq]
    rw [he] at h
    cases hcs : s.toList with
    | nil => rw [hcs] at h; cases h
    | cons c cs2 =>
      rw [hcs] at h
      have hdc : d = c := by cases h; rfl
      subst hdc
      have hcmem : d ∈ s.toList := by rw [hcs]; exact List.mem_cons_self d cs2
      have ho := ord_of_not_needsQuote hqf hcmem
      exact ⟨ho.2.2.1, ho.2.2.2⟩

theorem foldl_cells_crlf {cells : List String} (hne : cells ≠ []) :
    ∀ {R : List (List String)} {w : List String},
      (List.intercalate [';'] (cells.map encodeCell) ++ ['\r', '\n']).foldl csvStep
          ⟨R, w, [], .startField⟩ =
        ⟨R ++ [w ++ cells], [], [], .startRecord⟩ := by
  induction cells with
  | nil => cases hne rfl
  | cons c cells ih =>
    intro R w
    cases cells with
    | nil =>
      rw [List.map_cons, List.map_nil, intercalate_one, foldl_cell_crlf]
    | cons c2 cells2 =>
      have hint : List.intercalate [';'] ((c :: c2 :: cells2).map encodeCell) =
          encodeCell c ++ [';'] ++
            List.intercalate [';'] ((c2 :: cells2).map encodeCell) := by
        rw [List.map_cons, List.map_cons, intercalate_cons₂, ← List.map_cons]
      rw [hint]
      have hassoc : (encodeCell c ++ [';'] ++
          List.intercalate [';'] (List.map encodeCell (c2 :: cells2))) ++ ['\r', '\n'] =
          (encodeCell c ++ [';']) ++
            (List.intercalate [';'] (List.map encodeCell (c2 :: cells2)) ++ ['\r', '\n']) := by
        simp
      rw [hassoc, List.foldl_append, foldl_cell_semi, ih (by simp)]
      simp

theorem foldl_encodeRow {r : List String} {R : List (List String)} :
    (encodeRow r).foldl csvStep ⟨R, [], [], .startRecord⟩ = ⟨R ++ [r], [], [], .startRecord⟩ := by
  by_cases hsp : r = [""]
  · subst hsp
    have he : encodeRow [""] = ['"', '"', '\r', '\n'] := by
      unfold encodeRow
      rw [if_pos rfl]
    rw [he]
    rfl
  · have he : encodeRow r = List.intercalate [';'] (r.map encodeCell) ++ ['\r', '\n'] := by
      unfold encodeRow
      rw [if_neg hsp]
    rw [he]
    cases r with
    | nil =>
      show (['\r', '\n'].foldl csvStep ⟨R, [], [], .startRecord⟩) = _
      rfl
    | cons c rest =>
      cases rest with
      | nil =>
        have hc : ¬c = "" := fun hh => hsp (by rw [hh])
        rw [List.map_cons, List.map_nil, intercalate_one]
        have hhop : (encodeCell c ++ ['\r', '\n']).foldl csvStep
            ⟨R, ([] : List String), ([] : List Char), .startRecord⟩ =
            (encodeCell c ++ ['\r', '\n']).foldl csvStep ⟨R, [], [], .startField⟩ := by
          apply foldl_sr_of_sf (by simp)
          intro d hd
          cases hec : encodeCell c with
          | nil =>
            have : c.toList = [] := by
              by_cases hq : needsQuote c.toList
              · have : encodeCell c = '"' :: (escQuotes c.toList ++ ['"']) := by
                  unfold encodeCell
                  rw [if_pos hq]
                rw [this] at hec
                cases hec
              · have huq : encodeCell c = c.toList := by
                  unfold encodeCell
                  rw [if_neg hq]
                rw [huq] at hec
                exact hec
            have : c = "" := by
              have h2 := congrArg List.asString this
              rwa [asString_toList] at h2
            exact absurd this hc
          | cons e es =>
            rw [hec] at hd
            have hde : d = e := by
              rw [List.cons_append] at hd
              cases hd
              rfl
            subst hde
            exact encodeCell_head_ok (by rw [hec]; rfl)
        rw [hhop, foldl_cell_crlf]
        simp
      | cons c2 rest2 =>
        have hint : List.intercalate [';'] ((c :: c2 :: rest2).map encodeCell) =
            encodeCell c ++ [';'] ++
              List.intercalate [';'] ((c2 :: rest2).map encodeCell) := by
          rw [List.map_cons, List.map_cons, intercalate_cons₂, ← List.map_cons]
        rw [hint]
        have hassoc : (encodeCell c ++ [';'] ++
            List.intercalate [';'] (List.map encodeCell (c2 :: rest2))) ++ ['\r', '\n'] =
            (encodeCell c ++ [';']) ++
              (List.intercalate [';'] (List.map encodeCell (c2 :: rest2)) ++ ['\r', '\n']) := by
          simp
        rw [hassoc]
        have hhop : ((encodeCell c ++ [';']) ++
            (List.intercalate [';'] (List.map encodeCell (c2 :: rest2)) ++ ['\r', '\n'])).foldl
              csvStep ⟨R, ([] : List String), ([] : List Char), .startRecord⟩ =
            ((encodeCell c ++ [';']) ++
            (List.intercalate [';'] (List.map encodeCell (c2 :: rest2)) ++ ['\r', '\n'])).foldl
              csvStep ⟨R, [], [], .startField⟩ := by
          apply foldl_sr_of_sf (by simp)
          intro d hd
          cases hec : encodeCell c with
          | nil =>
            rw [hec] at hd
            have hds : d = ';' := by
              simp only [List.nil_append, List.cons_append] at hd
              cases hd
              rfl
            subst hds
            exact ⟨by decide, by decide⟩
          | cons e es =>
            rw [hec] at hd
            have hde : d = e := by
              simp only [List.cons_append] at hd
              cases hd
              rfl
            subst hde
            exact encodeCell_head_ok (by rw [hec]; rfl)
        rw [hhop, List.foldl_append, foldl_cell_semi, foldl_cells_crlf (by simp)]
        simp

theorem foldl_encodeCsv {rows : List (List String)} :
    ∀ {R : List (List String)},
      (encodeCsv rows).foldl csvStep ⟨R, [], [], .startRecord⟩ =
        ⟨R ++ rows, [], [], .startRecord⟩ := by
  induction rows with
  | nil => intro R; simp [encodeCsv]
  | cons r rows ih =>
    intro R
    have he : encodeCsv (r :: rows) = encodeRow r ++ encodeCsv rows := by
      simp [encodeCsv]
    rw [he, List.foldl_append, foldl_encodeRow, ih]
    simp

/-- Round trip of the csv text layer: reading back what the writer produced
recovers the rows exactly. -/
theorem decode_encode {rows : List (List String)} :
    decodeCsv (encodeCsv rows) = rows := by
  unfold decodeCsv
  rw [foldl_encodeCsv]
  rfl

/-- The first cell of the header row. -/
def REGION_CELL_NAME : String := "Регион"

/-- The set of all regions appearing across the bugs (Python builds a `set` of
the chained region-map key views); deduplicated list, since only membership
matters: the rows are sorted by name before being written. -/
def all_countries (t : BugTable) : List String :=
  (t.flatMap (fun p => p.2.map Prod.fst)).dedup

/-- The inner loop of `render_to_csv` for the bug at column `idx`: for every
country of the country set that this bug has a value for, set column `idx` of
that country's row to the value.  Accessing a missing key of the
`defaultdict` creates it with a fresh all-dash row; the key list records which
rows exist. -/
def render_fill_bug (ac : List String) (idx : Nat) (m : RegionMap)
    (st : List String × (String → List String)) : List String × (String → List String) :=
  ac.foldl (fun st c =>
    match dictGet m c with
    | some v => (if c ∈ st.1 then st.1 else st.1 ++ [c],
                 fun x => if x = c then (st.2 c).set idx v else st.2 x)
    | none => st) st

/-- The outer loop of `render_to_csv`: enumerate the bugs and fill the
rows-by-country table, starting from no keys and the all-dash default row of
one cell per bug. -/
def render_fill (t : BugTable) : List String × (String → List String) :=
  t.enum.foldl (fun st p => render_fill_bug (all_countries t) p.1 p.2.2 st)
    ([], fun _ => List.replicate t.length "-")

/-- Python `sorted` on strings: lexicographic order. -/
def sortStrings (l : List String) : List String :=
  List.insertionSort (fun a b => a ≤ b) l

/-- The rows `render_to_csv` writes: the header (region column label, then the
bug names in table order), then one row per filled country in sorted order,
each being the country name followed by its row of values. -/
def render_rows (t : BugTable) : List (List String) :=
  (REGION_CELL_NAME :: t.map Prod.fst) ::
    (sortStrings (render_fill t).1).map (fun c => c :: (render_fill t).2 c)

/-- The csv text the writer code inside `render_to_csv` would produce: the
header and sorted region rows encoded by the csv writer.  This models the
body of the function after its first statement — code that never runs, see
`render_to_csv` — and is kept as the intended writer for comparison with the
spec. -/
def render_to_csv_text (t : BugTable) : String :=
  (encodeCsv (render_rows t)).asString

/-- `render_to_csv` as the source executes it.  Its first statement is
`buffer_ = StringIO.StringIO()`, but `from six import StringIO` binds the
name `StringIO` to the StringIO class itself (io.StringIO on Python 3,
StringIO.StringIO on Python 2), and neither class has a `StringIO`
attribute: the function raises AttributeError before looking at the table,
for every input.  The writer code after that statement is modelled by
`render_rows` and `render_to_csv_text` above. -/
def render_to_csv (_bug_info_by_name : BugTable) : Except String String :=
  .error "AttributeError: type object StringIO has no attribute StringIO"

/-- The round trip the spec describes, as the program would execute it:
render the table to csv text, then read that text back. -/
def render_then_read (t : BugTable) : Except String (Option BugTable) :=
  match render_to_csv t with
  | .ok text => read_csv text
  | .error e => .error e

theorem render_fill_bug_apply {ac : List String} {idx : Nat} {m : RegionMap}
    {x : String} :
    ∀ {st : List String × (String → List String)},
      (render_fill_bug ac idx m st).2 x =
        if x ∈ ac then
          (match dictGet m x with
           | some v => (st.2 x).set idx v
           | none => st.2 x)
        else st.2 x := by
  induction ac with
  | nil =>
    intro st
    simp [render_fill_bug]
  | cons c ac ih =>
    intro st
    have hunfold : (render_fill_bug (c :: ac) idx m st).2 x =
        (render_fill_bug ac idx m (match dictGet m c with
          | some v => (if c ∈ st.1 then st.1 else st.1 ++ [c],
               fun y => if y = c then (st.2 c).set idx v else st.2 y)
          | none => st)).2 x := rfl
    rw [hunfold, ih]
    cases hv : dictGet m c with
    | some v =>
      by_cases hxc : x = c
      · subst hxc
        by_cases hx : x ∈ ac
        · simp [hx, hv, List.set_set]
        · simp [hx, hv]
      · by_cases hx : x ∈ ac
        · simp [hxc, hx]
        · simp [hxc, hx]
    | none =>
      by_cases hxc : x = c
      · subst hxc
        by_cases hx : x ∈ ac
        · simp [hx, hv]
        · simp [hx, hv]
      · by_cases hx : x ∈ ac
        · simp [hxc, hx]
        · simp [hxc, hx]

theorem render_fill_bug_keys {ac : List String} {idx : Nat} {m : RegionMap} {x : String} :
    ∀ {st : List String × (String → List String)},
      (x ∈ (render_fill_bug ac idx m st).1 ↔
        x ∈ st.1 ∨ (x ∈ ac ∧ dictGet m x ≠ none)) := by
  induction ac with
  | nil =>
    intro st
    simp [render_fill_bug]
  | cons c ac ih =>
    intro st
    have hunfold : (render_fill_bug (c :: ac) idx m st).1 =
        (render_fill_bug ac idx m (match dictGet m c with
          | some v => (if c ∈ st.1 then st.1 else st.1 ++ [c],
               fun y => if y = c then (st.2 c).set idx v else st.2 y)
          | none => st)).1 := rfl
    rw [hunfold, ih]
    cases hv : dictGet m c with
    | some v =>
      by_cases hxc : x = c
      · subst hxc
        by_cases hmem : x ∈ st.1
        · simp [hmem, hv]
        · simp [hmem, hv]
      · by_cases hcs : c ∈ st.1
        · simp [hxc, hcs]
        · simp [hxc, hcs]
    | none =>
      by_cases hxc : x = c
      · subst hxc
        simp [hv]
      · simp [hxc]

theorem render_fill_bug_keys_nodup {ac : List String} {idx : Nat} {m : RegionMap} :
    ∀ {st : List String × (String → List String)},
      st.1.Nodup → (render_fill_bug ac idx m st).1.Nodup := by
  induction ac with
  | nil =>
    intro st h
    simpa [render_fill_bug] using h
  | cons c ac ih =>
    intro st h
    have hunfold : (render_fill_bug (c :: ac) idx m st).1 =
        (render_fill_bug ac idx m (match dictGet m c with
          | some v => (if c ∈ st.1 then st.1 else st.1 ++ [c],
               fun y => if y = c then (st.2 c).set idx v else st.2 y)
          | none => st)).1 := rfl
    rw [hunfold]
    apply ih
    cases hv : dictGet m c with
    | some v =>
      by_cases hcs : c ∈ st.1
      · simpa [hcs] using h
      · show (if c ∈ st.1 then st.1 else st.1 ++ [c]).Nodup
        rw [if_neg hcs]
        simp [List.nodup_append, h, hcs]
    | none => exact h

theorem set_length_append {M R : List String} {d v : String} :
    (M ++ d :: R).set M.length v = M ++ v :: R := by
  induction M with
  | nil => rfl
  | cons a M ih =>
    show a :: ((M ++ d :: R).set M.length v) = a :: (M ++ v :: R)
    rw [ih]

theorem render_fill_go_apply {ac : List String} {x : String} (hx : x ∈ ac) :
    ∀ (l : List (String × RegionMap)) (M ks : List String) (f : String → List String),
      f x = M ++ List.replicate l.length "-" →
      ((List.enumFrom M.length l).foldl
          (fun st p => render_fill_bug ac p.1 p.2.2 st) (ks, f)).2 x =
        M ++ l.map (fun p => (dictGet p.2 x).getD "-") := by
  intro l
  induction l with
  | nil =>
    intro M ks f hf
    simpa using hf
  | cons p l ih =>
    intro M ks f hf
    rw [show List.enumFrom M.length (p :: l) =
      (M.length, p) :: List.enumFrom (M.length + 1) l from rfl, List.foldl_cons]
    rcases hst : render_fill_bug ac M.length p.2 (ks, f) with ⟨ks2, f2⟩
    have hf2 : f2 x = (M ++ [(dictGet p.2 x).getD "-"]) ++ List.replicate l.length "-" := by
      have happ := @render_fill_bug_apply ac M.length p.2 x (ks, f)
      rw [hst] at happ
      show (ks2, f2).2 x = _
      rw [happ, if_pos hx]
      cases hv : dictGet p.2 x with
      | some v =>
        show ((ks, f).2 x).set M.length v = _
        rw [show ((ks, f).2 : String → List String) = f from rfl, hf,
          show (p :: l).length = l.length + 1 from rfl, List.replicate_succ,
          set_length_append]
        simp
      | none =>
        show (ks, f).2 x = _
        rw [show ((ks, f).2 : String → List String) = f from rfl, hf,
          show (p :: l).length = l.length + 1 from rfl, List.replicate_succ]
        simp
    have hlen : (M ++ [(dictGet p.2 x).getD "-"]).length = M.length + 1 := by simp
    have hih := ih (M ++ [(dictGet p.2 x).getD "-"]) ks2 f2 hf2
    rw [hlen] at hih
    rw [hih]
    simp

theorem render_fill_go_keys {ac : List String} {x : String} :
    ∀ (l : List (String × RegionMap)) (k : Nat) (ks : List String) (f : String → List String),
      (x ∈ ((List.enumFrom k l).foldl
          (fun st p => render_fill_bug ac p.1 p.2.2 st) (ks, f)).1 ↔
        x ∈ ks ∨ (x ∈ ac ∧ ∃ p ∈ l, dictGet p.2 x ≠ none)) := by
  intro l
  induction l with
  | nil =>
    intro k ks f
    simp
  | cons p l ih =>
    intro k ks f
    rw [show List.enumFrom k (p :: l) = (k, p) :: List.enumFrom (k + 1) l from rfl,
      List.foldl_cons]
    rcases hst : render_fill_bug ac k p.2 (ks, f) with ⟨ks2, f2⟩
    rw [ih]
    have hkeys := @render_fill_bug_keys ac k p.2 x (ks, f)
    rw [hst] at hkeys
    have hks2 : x ∈ ks2 ↔ x ∈ ks ∨ (x ∈ ac ∧ dictGet p.2 x ≠ none) := hkeys
    rw [hks2]
    constructor
    · rintro ((h | ⟨hac, hd⟩) | ⟨hac, q, hq, hd⟩)
      · exact Or.inl h
      · exact Or.inr ⟨hac, p, List.mem_cons_self p l, hd⟩
      · exact Or.inr ⟨hac, q, List.mem_cons_of_mem p hq, hd⟩
    · rintro (h | ⟨hac, q, hq, hd⟩)
      · exact Or.inl (Or.inl h)
      · rcases List.mem_cons.mp hq with hq | hq
        · exact Or.inl (Or.inr ⟨hac, hq ▸ hd⟩)
        · exact Or.inr ⟨hac, q, hq, hd⟩

theorem render_fill_go_nodup {ac : List String} :
    ∀ (l : List (String × RegionMap)) (k : Nat) (ks : List String) (f : String → List String),
      ks.Nodup →
      ((List.enumFrom k l).foldl
        (fun st p => render_fill_bug ac p.1 p.2.2 st) (ks, f)).1.Nodup := by
  intro l
  induction l with
  | nil =>
    intro k ks f h
    simpa using h
  | cons p l ih =>
    intro k ks f h
    rw [show List.enumFrom k (p :: l) = (k, p) :: List.enumFrom (k + 1) l from rfl,
      List.foldl_cons]
    rcases hst : render_fill_bug ac k p.2 (ks, f) with ⟨ks2, f2⟩
    apply ih
    have := @render_fill_bug_keys_nodup ac k p.2 (ks, f) h
    rw [hst] at this
    exact this

theorem mem_all_countries {t : BugTable} {x : String} :
    x ∈ all_countries t ↔ ∃ p ∈ t, x ∈ p.2.map Prod.fst := by
  simp [all_countries, List.mem_dedup, List.mem_flatMap]

theorem render_fill_apply {t : BugTable} {x : String} (hx : x ∈ all_countries t) :
    (render_fill t).2 x = t.map (fun p => (dictGet p.2 x).getD "-") := by
  have h := render_fill_go_apply hx t [] []
    (fun _ => List.replicate t.length "-") (by simp)
  simpa [render_fill, List.enum] using h

theorem render_fill_keys {t : BugTable} {x : String} :
    x ∈ (render_fill t).1 ↔ x ∈ all_countries t := by
  unfold render_fill
  rw [show (t.enum : List (Nat × (String × RegionMap))) = List.enumFrom 0 t from rfl]
  rw [render_fill_go_keys]
  constructor
  · rintro (h | ⟨hac, _⟩)
    · cases h
    · exact hac
  · intro hac
    refine Or.inr ⟨hac, ?_⟩
    obtain ⟨p, hp, hxp⟩ := mem_all_countries.mp hac
    exact ⟨p, hp, fun hnone => (dictGet_eq_none_iff.mp hnone) hxp⟩

theorem render_fill_nodup {t : BugTable} : (render_fill t).1.Nodup := by
  unfold render_fill
  rw [show (t.enum : List (Nat × (String × RegionMap))) = List.enumFrom 0 t from rfl]
  exact render_fill_go_nodup t 0 [] (fun _ => List.replicate t.length "-") (by simp)

theorem sortStrings_sorted {l : List String} :
    (sortStrings l).Sorted (fun a b : String => a ≤ b) :=
  List.sorted_insertionSort (fun a b : String => a ≤ b) l

theorem sortStrings_perm {l : List String} : List.Perm (sortStrings l) l :=
  List.perm_insertionSort (fun a b : String => a ≤ b) l

theorem sortStrings_eq_of_same {l1 l2 : List String} (h1 : l1.Nodup) (h2 : l2.Nodup)
    (h : ∀ x, x ∈ l1 ↔ x ∈ l2) : sortStrings l1 = sortStrings l2 := by
  apply List.eq_of_perm_of_sorted _ sortStrings_sorted sortStrings_sorted
  exact (sortStrings_perm.trans ((List.perm_ext_iff_of_nodup h1 h2).mpr h)).trans
    sortStrings_perm.symm

theorem render_rows_eq {t : BugTable} :
    render_rows t = (REGION_CELL_NAME :: t.map Prod.fst) ::
      (sortStrings (all_countries t)).map
        (fun c => c :: t.map (fun p => (dictGet p.2 c).getD "-")) := by
  unfold render_rows
  congr 1
  rw [sortStrings_eq_of_same render_fill_nodup (List.nodup_dedup _)
    (fun x => render_fill_keys)]
  apply List.map_congr_left
  intro c hc
  have hc2 : c ∈ all_countries t := sortStrings_perm.mem_iff.mp hc
  rw [render_fill_apply hc2]

/-- C5: the claim says `render_to_csv` returns CSV text whose first row is
the region column label followed by the bug names in the table's iteration
order, followed by one row per region appearing in any bug's RegionMap,
sorted lexicographically, with the dash placeholder for absent (bug, region)
pairs.  The code never returns any text: its first statement,
`StringIO.StringIO()` on the StringIO class imported from six, raises
AttributeError for every table (first conjunct).  The writer code after that
statement does compute exactly the claimed rows — second conjunct, about the
modelled dead code `render_to_csv_text` — so the claim describes the evident
intent of the function and the first statement is the slip. -/
theorem render_to_csv_raises_attributeerror :
    (∀ t : BugTable, render_to_csv t =
      .error "AttributeError: type object StringIO has no attribute StringIO") ∧
    (∀ t : BugTable,
      decodeCsv (render_to_csv_text t).toList =
        (REGION_CELL_NAME :: t.map Prod.fst) ::
          (sortStrings (all_countries t)).map
            (fun c => c :: t.map (fun p => (dictGet p.2 c).getD "-")) ∧
      (sortStrings (all_countries t)).Sorted (fun a b : String => a ≤ b) ∧
      ∀ c, c ∈ sortStrings (all_countries t) ↔ ∃ p ∈ t, c ∈ p.2.map Prod.fst) := by
  refine ⟨fun t => rfl, fun t => ⟨?_, sortStrings_sorted, ?_⟩⟩
  · show decodeCsv ((encodeCsv (render_rows t)).asString).toList = _
    rw [show ((encodeCsv (render_rows t)).asString).toList = encodeCsv (render_rows t)
      from rfl, decode_encode, render_rows_eq]
  · intro c
    rw [sortStrings_perm.mem_iff, mem_all_countries]

theorem dictGet_cells_zip {t : BugTable} {b r : String}
    (h1 : (t.map Prod.fst).Nodup) :
    dictGet ((t.map Prod.fst).zip (t.map (fun p => (dictGet p.2 r).getD "-"))) b =
      match dictGet t b with
      | some m => some ((dictGet m r).getD "-")
      | none => none := by
  rw [List.zip_map']
  cases ht : dictGet t b with
  | some m =>
    have hmem : (b, m) ∈ t := mem_of_dictGet ht
    have hmem2 : (b, (dictGet m r).getD "-") ∈
        t.map (fun p => (p.1, (dictGet p.2 r).getD "-")) := by
      have hmm := List.mem_map_of_mem (fun p : String × RegionMap =>
        (p.1, (dictGet p.2 r).getD "-")) hmem
      simpa using hmm
    have hnd2 : ((t.map (fun p : String × RegionMap =>
        (p.1, (dictGet p.2 r).getD "-"))).map Prod.fst).Nodup := by
      rw [List.map_map]
      exact h1
    exact dictGet_of_mem_nodup hnd2 hmem2
  | none =>
    rw [dictGet_eq_none_iff]
    intro hc
    rw [List.map_map] at hc
    exact (dictGet_eq_none_iff.mp ht) hc


theorem encodeCsv_cons {x : List String} {l : List (List String)} :
    encodeCsv (x :: l) = encodeRow x ++ encodeCsv l := by
  simp [encodeCsv]

theorem region_char_in_render_text {t : BugTable} :
    'Р' ∈ (render_to_csv_text t).toList := by
  rw [show (render_to_csv_text t).toList = encodeCsv (render_rows t) from rfl]
  rw [show render_rows t = (REGION_CELL_NAME :: t.map Prod.fst) ::
      (sortStrings (render_fill t).1).map (fun c => c :: (render_fill t).2 c) from rfl]
  rw [encodeCsv_cons, List.mem_append]
  left
  have hne : (REGION_CELL_NAME :: t.map Prod.fst) ≠ [""] := by
    intro hc
    injection hc with h1 h2
    exact absurd h1 (by decide)
  have he : encodeRow (REGION_CELL_NAME :: t.map Prod.fst) =
      List.intercalate [';'] ((REGION_CELL_NAME :: t.map Prod.fst).map encodeCell) ++
        ['\r', '\n'] := by
    unfold encodeRow
    rw [if_neg hne]
  rw [he, List.mem_append]
  left
  rw [List.map_cons]
  have hmem : 'Р' ∈ encodeCell REGION_CELL_NAME := by decide
  cases hrest : (t.map Prod.fst).map encodeCell with
  | nil => rw [intercalate_one]; exact hmem
  | cons y ys =>
    rw [intercalate_cons₂, List.mem_append, List.mem_append]
    exact Or.inl (Or.inl hmem)

theorem read_csv_render_text_unicode_error {t : BugTable} :
    read_csv (render_to_csv_text t) =
      .error "UnicodeEncodeError: ascii codec can not encode character" := by
  have hfalse : pyIsAscii (render_to_csv_text t) = false := by
    unfold pyIsAscii
    rw [List.all_eq_false]
    exact ⟨'Р', region_char_in_render_text, by decide⟩
  unfold read_csv
  rw [if_neg (by simp [hfalse])]

/-- C4: the claim says applying `render_to_csv` and then `read_csv` to the
rendered text reproduces the table's (bug, region) → value associations, for
tables whose values contain no delimiter and no newline.  The pipeline never
gets that far: for every table — in particular every table meeting the
claim's value restrictions — the render step raises AttributeError at its
first statement, before any text exists to read back (first conjunct).  And
even the text the dead writer code would have produced cannot be read back
on the source's interpreter, because its header starts with the non-ASCII
region label and the csv reader's ASCII coercion raises UnicodeEncodeError
(second conjunct).  The round trip is the spec's stated intent, listed among
its testable properties, and fails only through these slips. -/
theorem render_then_read_never_roundtrips :
    (∀ t : BugTable, render_then_read t =
      .error "AttributeError: type object StringIO has no attribute StringIO") ∧
    (∀ t : BugTable, read_csv (render_to_csv_text t) =
      .error "UnicodeEncodeError: ascii codec can not encode character") :=
  ⟨fun _ => rfl, fun _ => read_csv_render_text_unicode_error⟩
